import Mathlib

/-!
Verification of the CloudOS kernel core: a shallow embedding of the bump
heap allocator (`src/allocator/bump.rs`, `src/allocator.rs`), the
boot-info frame allocator (`src/memory.rs`), the heap initializer
(`src/allocator.rs`) and the descriptor-table / interrupt configuration
(`src/gdt.rs`, `src/interrupts.rs`), together with proofs about them.

Machine integers (`usize`, 64-bit) are embedded as `Nat` with explicit
reduction modulo `2 ^ 64` wherever the Rust code can wrap.
-/

namespace CloudOS

set_option maxRecDepth 10000

/-- The modulus of 64-bit `usize` arithmetic. -/
def USIZE : Nat := 2 ^ 64

/-- Bitwise NOT on a 64-bit word (`!x` in Rust on `usize`). -/
def not64 (x : Nat) : Nat := x ^^^ (USIZE - 1)

/-- `align_up` from `src/allocator.rs`:
`(addr + align - 1) & !(align - 1)` in `usize` arithmetic.  The caller
(`GlobalAlloc`) guarantees `align` is a power of two, hence `align ≥ 1`,
so `addr + align - 1` never underflows; the addition may wrap, which the
reduction modulo `USIZE` models. -/
def align_up (addr align : Nat) : Nat :=
  ((addr + align - 1) % USIZE) &&& not64 (align - 1)

/-- The bump allocator state from `src/allocator/bump.rs`. -/
structure BumpAllocator where
  heap_start : Nat
  heap_end : Nat
  next : Nat
  allocations : Nat
deriving DecidableEq

/-- `BumpAllocator::new`. -/
def BumpAllocator.new : BumpAllocator :=
  { heap_start := 0, heap_end := 0, next := 0, allocations := 0 }

/-- `BumpAllocator::init`: sets `heap_start`, `heap_end = heap_start +
heap_size` (a `usize` addition, hence reduced mod `2 ^ 64`) and
`next = heap_start`; `allocations` is left untouched. -/
def BumpAllocator.init (b : BumpAllocator) (heap_start heap_size : Nat) :
    BumpAllocator :=
  { b with
    heap_start := heap_start
    heap_end := (heap_start + heap_size) % USIZE
    next := heap_start }

/-- `alloc` for `Locked<BumpAllocator>`: align the cursor up, add the
size with `checked_add` (failure sentinel on overflow), fail if the end
exceeds `heap_end`, otherwise commit the new cursor and bump the
allocation count.  `none` models the `ptr::null_mut()` failure
sentinel; `some a` models returning address `a`. -/
def BumpAllocator.alloc (b : BumpAllocator) (size align : Nat) :
    BumpAllocator × Option Nat :=
  let alloc_start := align_up b.next align
  if USIZE ≤ alloc_start + size then
    (b, none)
  else
    let alloc_end := alloc_start + size
    if b.heap_end < alloc_end then
      (b, none)
    else
      ({ b with
          next := alloc_end
          allocations := (b.allocations + 1) % USIZE }, some alloc_start)

/-- `dealloc` for `Locked<BumpAllocator>`: the pointer and layout
arguments are ignored; the allocation count is decremented by an
unguarded `usize` subtraction (wrapping, modelled mod `2 ^ 64`), and if
it reaches zero the cursor is reset to `heap_start`. -/
def BumpAllocator.dealloc (b : BumpAllocator) (ptr size align : Nat) :
    BumpAllocator :=
  let allocations := (b.allocations + (USIZE - 1)) % USIZE
  if allocations = 0 then
    { b with allocations := allocations, next := b.heap_start }
  else
    { b with allocations := allocations }

/-- A request made to the global allocator: an `alloc` with a layout, or
a `dealloc` with a pointer and a layout. -/
inductive HeapOp where
  | alloc (size align : Nat)
  | dealloc (ptr size align : Nat)

/-- Apply one operation to the allocator state. -/
def runOp (b : BumpAllocator) : HeapOp → BumpAllocator
  | .alloc size align => (b.alloc size align).1
  | .dealloc ptr size align => b.dealloc ptr size align

/-- Apply a sequence of operations to the allocator state. -/
def runOps (ops : List HeapOp) (b : BumpAllocator) : BumpAllocator :=
  ops.foldl runOp b

/-- The state invariant of the bump allocator claimed by the spec. -/
def heapInv (b : BumpAllocator) : Prop :=
  b.heap_start ≤ b.next ∧ b.next ≤ b.heap_end

instance (b : BumpAllocator) : Decidable (heapInv b) := by
  unfold heapInv; infer_instance

/-! ### Arithmetic facts about `align_up` -/

theorem USIZE_eq : USIZE = 2 ^ 64 := rfl

theorem USIZE_pos : 0 < USIZE := by rw [USIZE_eq]; positivity

theorem mask_shift {k : Nat} (hk : k ≤ 64) :
    USIZE - 2 ^ k = (2 ^ (64 - k) - 1) <<< k := by
  rw [Nat.shiftLeft_eq, Nat.sub_mul, ← Nat.pow_add, one_mul,
    Nat.sub_add_cancel hk, USIZE_eq]

/-- `!(2 ^ k - 1)` on 64 bits is `2 ^ 64 - 2 ^ k`. -/
theorem not64_pow_sub_one {k : Nat} (hk : k ≤ 64) :
    not64 (2 ^ k - 1) = USIZE - 2 ^ k := by
  rw [not64, mask_shift hk, USIZE_eq]
  apply Nat.eq_of_testBit_eq
  intro i
  rw [Nat.testBit_xor, Nat.testBit_shiftLeft]
  simp only [Nat.testBit_two_pow_sub_one]
  by_cases h1 : i < k
  · have h2 : ¬ k ≤ i := by omega
    simp [h1, h2, (by omega : i < 64)]
  · by_cases h3 : i < 64
    · simp [h1, h3, (by omega : k ≤ i), (by omega : i - k < 64 - k)]
    · have h4 : ¬ (i - k < 64 - k) := by omega
      simp [h1, h3, h4, (by omega : k ≤ i)]

/-- Masking a 64-bit value with `2 ^ 64 - 2 ^ k` clears its low `k`
bits: the result is the value rounded down to a multiple of `2 ^ k`. -/
theorem land_high_mask {x k : Nat} (hx : x < USIZE) (hk : k ≤ 64) :
    x &&& (USIZE - 2 ^ k) = 2 ^ k * (x / 2 ^ k) := by
  rw [mask_shift hk]
  apply Nat.eq_of_testBit_eq
  intro i
  rw [Nat.testBit_and, Nat.testBit_shiftLeft]
  have hmul : 2 ^ k * (x / 2 ^ k) = (x / 2 ^ k) <<< k := by
    rw [Nat.shiftLeft_eq, Nat.mul_comm]
  rw [hmul, Nat.testBit_shiftLeft]
  by_cases h1 : k ≤ i
  · rw [Nat.testBit_two_pow_sub_one]
    have hxr : (x / 2 ^ k).testBit (i - k) = x.testBit i := by
      have h5 := Nat.testBit_shiftRight (x := x) (i := k) (j := i - k)
      rw [Nat.shiftRight_eq_div_pow] at h5
      rw [h5, Nat.add_sub_cancel' h1]
    by_cases h3 : i - k < 64 - k
    · simp [h1, h3, hxr]
    · have hi64 : 64 ≤ i := by omega
      have h6 : x.testBit i = false := by
        apply Nat.testBit_lt_two_pow
        calc x < USIZE := hx
          _ ≤ 2 ^ i := by rw [USIZE_eq]; exact Nat.pow_le_pow_right (by omega) hi64
      simp [h1, h3, hxr, h6]
  · simp [h1]

/-- Characterization of `align_up` at a power-of-two alignment: it is
the (possibly wrapped) sum `addr + 2 ^ k - 1` rounded down to a
multiple of `2 ^ k`. -/
theorem align_up_eq {addr k : Nat} (hk : k ≤ 64) :
    align_up addr (2 ^ k) =
      2 ^ k * (((addr + 2 ^ k - 1) % USIZE) / 2 ^ k) := by
  unfold align_up
  rw [not64_pow_sub_one hk]
  exact land_high_mask (Nat.mod_lt _ USIZE_pos) hk

/-- `align_up` always returns a multiple of the power-of-two
alignment, wrapped or not. -/
theorem align_up_dvd {addr k : Nat} (hk : k ≤ 64) :
    2 ^ k ∣ align_up addr (2 ^ k) :=
  align_up_eq hk ▸ Dvd.intro _ rfl

/-- When the internal addition does not wrap, `align_up` rounds up:
the result is a multiple of the alignment, at least `addr`, and below
any other multiple of the alignment that is at least `addr`. -/
theorem align_up_no_wrap {addr k : Nat} (hk : k ≤ 64)
    (hnw : addr + 2 ^ k - 1 < USIZE) :
    align_up addr (2 ^ k) = 2 ^ k * ((addr + 2 ^ k - 1) / 2 ^ k) ∧
    addr ≤ align_up addr (2 ^ k) ∧
    ∀ m, 2 ^ k ∣ m → addr ≤ m → align_up addr (2 ^ k) ≤ m := by
  have hpos : 0 < 2 ^ k := Nat.pos_pow_of_pos k (by omega)
  have heq : align_up addr (2 ^ k) = 2 ^ k * ((addr + 2 ^ k - 1) / 2 ^ k) := by
    rw [align_up_eq hk, Nat.mod_eq_of_lt hnw]
  refine ⟨heq, ?_, ?_⟩
  · rw [heq]
    have hdm := Nat.div_add_mod (addr + 2 ^ k - 1) (2 ^ k)
    have hml := Nat.mod_lt (addr + 2 ^ k - 1) hpos
    omega
  · intro m hdvd hm
    rcases hdvd with ⟨t, ht⟩
    rw [heq, ht]
    apply Nat.mul_le_mul_left
    have hle : (addr + 2 ^ k - 1) ≤ 2 ^ k * t + (2 ^ k - 1) := by omega
    calc (addr + 2 ^ k - 1) / 2 ^ k
        ≤ (2 ^ k * t + (2 ^ k - 1)) / 2 ^ k := Nat.div_le_div_right hle
      _ = t := by
          rw [Nat.add_comm, Nat.add_mul_div_left _ _ hpos,
            Nat.div_eq_of_lt (by omega : 2 ^ k - 1 < 2 ^ k), Nat.zero_add]

/-! ### Branch characterizations of `alloc` and `dealloc` -/

/-- Branch-by-branch description of `BumpAllocator.alloc`. -/
theorem alloc_spec (b : BumpAllocator) (size align : Nat) :
    (USIZE ≤ align_up b.next align + size → b.alloc size align = (b, none)) ∧
    (align_up b.next align + size < USIZE →
      b.heap_end < align_up b.next align + size → b.alloc size align = (b, none)) ∧
    (align_up b.next align + size < USIZE →
      align_up b.next align + size ≤ b.heap_end →
      b.alloc size align =
        ({ b with
            next := align_up b.next align + size
            allocations := (b.allocations + 1) % USIZE },
          some (align_up b.next align))) := by
  refine ⟨fun h => ?_, fun h1 h2 => ?_, fun h1 h2 => ?_⟩ <;>
    simp only [BumpAllocator.alloc]
  · rw [if_pos h]
  · rw [if_neg (by omega), if_pos h2]
  · rw [if_neg (by omega), if_neg (by omega)]

/-- A failing `alloc` leaves the state unchanged. -/
theorem alloc_none (b b' : BumpAllocator) (size align : Nat)
    (h : b.alloc size align = (b', none)) : b' = b := by
  have hs := alloc_spec b size align
  rcases Nat.lt_or_ge (align_up b.next align + size) USIZE with h1 | h1
  · rcases le_or_lt (align_up b.next align + size) b.heap_end with h2 | h2
    · rw [hs.2.2 h1 h2] at h; exact absurd h.symm (by simp)
    · rw [hs.2.1 h1 h2] at h; exact congrArg Prod.fst h.symm
  · rw [hs.1 h1] at h; exact congrArg Prod.fst h.symm

/-- A successful `alloc` returns the aligned cursor and commits exactly
the new cursor and the incremented count. -/
theorem alloc_some (b b' : BumpAllocator) (size align addr : Nat)
    (h : b.alloc size align = (b', some addr)) :
    addr = align_up b.next align ∧
    addr + size < USIZE ∧ addr + size ≤ b.heap_end ∧
    b' = { b with
            next := addr + size
            allocations := (b.allocations + 1) % USIZE } := by
  have hs := alloc_spec b size align
  rcases Nat.lt_or_ge (align_up b.next align + size) USIZE with h1 | h1
  · rcases le_or_lt (align_up b.next align + size) b.heap_end with h2 | h2
    · rw [hs.2.2 h1 h2] at h
      have ha : addr = align_up b.next align := by
        have := congrArg Prod.snd h
        simpa using this.symm
      subst ha
      refine ⟨rfl, h1, h2, ?_⟩
      exact (congrArg Prod.fst h).symm
    · rw [hs.2.1 h1 h2] at h; exact absurd (congrArg Prod.snd h) (by simp)
  · rw [hs.1 h1] at h; exact absurd (congrArg Prod.snd h) (by simp)

/-- `dealloc` when the wrapped decrement reaches zero. -/
theorem dealloc_eq_zero (b : BumpAllocator) (ptr size align : Nat)
    (h : (b.allocations + (USIZE - 1)) % USIZE = 0) :
    b.dealloc ptr size align =
      { b with allocations := 0, next := b.heap_start } := by
  simp only [BumpAllocator.dealloc]
  rw [if_pos h, h]

/-- `dealloc` when the wrapped decrement stays nonzero. -/
theorem dealloc_eq_pos (b : BumpAllocator) (ptr size align : Nat)
    (h : (b.allocations + (USIZE - 1)) % USIZE ≠ 0) :
    b.dealloc ptr size align =
      { b with allocations := (b.allocations + (USIZE - 1)) % USIZE } := by
  simp only [BumpAllocator.dealloc]
  rw [if_neg h]

/-- The wrapping decrement at zero underflows to `2 ^ 64 - 1`. -/
theorem wrap_sub_at_zero : (0 + (USIZE - 1)) % USIZE = USIZE - 1 := by
  have h := USIZE_pos
  rw [Nat.zero_add, Nat.mod_eq_of_lt (by omega)]

/-- The wrapping decrement agrees with plain subtraction on positive
in-range counts. -/
theorem wrap_sub_pos {a : Nat} (h0 : 0 < a) (h1 : a < USIZE) :
    (a + (USIZE - 1)) % USIZE = a - 1 := by
  have h2 : a + (USIZE - 1) = (a - 1) + USIZE := by
    have := USIZE_pos; omega
  rw [h2, Nat.add_mod_right, Nat.mod_eq_of_lt (by omega)]

/-- **C2** (confirmed).  Allocation failure is atomic: for every state
and request, if the aligned end exceeds `heap_end`, or the addition
`aligned_start + size` overflows `usize`, `alloc` returns the failure
sentinel and leaves the whole state unchanged; otherwise it commits
`next = aligned_start + size`, increments `allocations` by one (a
`usize` increment; exact whenever the count is below `2 ^ 64 - 1`), and
returns `aligned_start`. -/
theorem alloc_failure_atomic (b : BumpAllocator) (size align : Nat) :
    (USIZE ≤ align_up b.next align + size → b.alloc size align = (b, none)) ∧
    (align_up b.next align + size < USIZE →
      b.heap_end < align_up b.next align + size → b.alloc size align = (b, none)) ∧
    (align_up b.next align + size < USIZE →
      align_up b.next align + size ≤ b.heap_end →
      b.alloc size align =
        ({ b with
            next := align_up b.next align + size
            allocations := (b.allocations + 1) % USIZE },
          some (align_up b.next align))) ∧
    (align_up b.next align + size < USIZE →
      align_up b.next align + size ≤ b.heap_end →
      b.allocations + 1 < USIZE →
      ((b.alloc size align).1).allocations = b.allocations + 1) := by
  have hs := alloc_spec b size align
  refine ⟨hs.1, hs.2.1, hs.2.2, fun h1 h2 h3 => ?_⟩
  rw [hs.2.2 h1 h2]
  exact Nat.mod_eq_of_lt h3

/-- Witness for C2: a concrete committing request and a concrete
failing request. -/
theorem alloc_failure_atomic_witness :
    BumpAllocator.alloc ⟨1000, 1100, 1000, 0⟩ 10 1 =
      (⟨1000, 1100, 1010, 1⟩, some 1000) ∧
    BumpAllocator.alloc ⟨1000, 1100, 1095, 3⟩ 10 1 =
      (⟨1000, 1100, 1095, 3⟩, none) := by
  constructor
  · have h := (alloc_failure_atomic ⟨1000, 1100, 1000, 0⟩ 10 1).2.2.1
      (by decide) (by decide)
    rw [h]; decide
  · have h := (alloc_failure_atomic ⟨1000, 1100, 1095, 3⟩ 10 1).2.1
      (by decide) (by decide)
    rw [h]

/-- **C9** (confirmed).  `dealloc` ignores its pointer and layout
arguments, unconditionally applies the unguarded wrapping decrement to
the counter, touches no other state but the conditional cursor reset,
underflows to `2 ^ 64 - 1` when called with `allocations = 0`, and
agrees with true subtraction exactly when `allocations > 0`. -/
theorem dealloc_ignores_args :
    (∀ (b : BumpAllocator) (p1 s1 a1 p2 s2 a2 : Nat),
      b.dealloc p1 s1 a1 = b.dealloc p2 s2 a2) ∧
    (∀ (b : BumpAllocator) (ptr size align : Nat),
      (b.dealloc ptr size align).heap_start = b.heap_start ∧
      (b.dealloc ptr size align).heap_end = b.heap_end ∧
      (b.dealloc ptr size align).allocations =
        (b.allocations + (USIZE - 1)) % USIZE ∧
      (b.dealloc ptr size align).next =
        (if (b.allocations + (USIZE - 1)) % USIZE = 0 then b.heap_start
         else b.next)) ∧
    (∀ (b : BumpAllocator) (ptr size align : Nat), b.allocations = 0 →
      (b.dealloc ptr size align).allocations = USIZE - 1) ∧
    (∀ (b : BumpAllocator) (ptr size align : Nat), b.allocations < USIZE →
      ((b.dealloc ptr size align).allocations = b.allocations - 1 ↔
        0 < b.allocations)) := by
  have hfields : ∀ (b : BumpAllocator) (ptr size align : Nat),
      (b.dealloc ptr size align).heap_start = b.heap_start ∧
      (b.dealloc ptr size align).heap_end = b.heap_end ∧
      (b.dealloc ptr size align).allocations =
        (b.allocations + (USIZE - 1)) % USIZE ∧
      (b.dealloc ptr size align).next =
        (if (b.allocations + (USIZE - 1)) % USIZE = 0 then b.heap_start
         else b.next) := by
    intro b ptr size align
    by_cases h : (b.allocations + (USIZE - 1)) % USIZE = 0
    · rw [dealloc_eq_zero b ptr size align h, if_pos h]
      exact ⟨rfl, rfl, h.symm, rfl⟩
    · rw [dealloc_eq_pos b ptr size align h, if_neg h]
      exact ⟨rfl, rfl, rfl, rfl⟩
  refine ⟨?_, hfields, ?_, ?_⟩
  · intro b p1 s1 a1 p2 s2 a2
    by_cases h : (b.allocations + (USIZE - 1)) % USIZE = 0
    · rw [dealloc_eq_zero b p1 s1 a1 h, dealloc_eq_zero b p2 s2 a2 h]
    · rw [dealloc_eq_pos b p1 s1 a1 h, dealloc_eq_pos b p2 s2 a2 h]
  · intro b ptr size align h0
    rw [(hfields b ptr size align).2.2.1, h0, wrap_sub_at_zero]
  · intro b ptr size align hlt
    rw [(hfields b ptr size align).2.2.1]
    rcases Nat.eq_zero_or_pos b.allocations with h0 | h0
    · rw [h0, wrap_sub_at_zero]
      constructor
      · intro h; exfalso
        have := USIZE_pos
        rw [USIZE_eq] at *
        omega
      · intro h; omega
    · rw [wrap_sub_pos h0 hlt]
      exact ⟨fun _ => h0, fun _ => rfl⟩

/-- Witness for C9: the underflowing call at count `0` and an exact
decrement at count `5`, both at concrete states. -/
theorem dealloc_ignores_args_witness :
    (BumpAllocator.dealloc ⟨1000, 1100, 1000, 0⟩ 0 8 8).allocations =
      USIZE - 1 ∧
    ((BumpAllocator.dealloc ⟨1000, 1100, 1050, 5⟩ 0 8 8).allocations = 4 ↔
      (0 : Nat) < 5) := by
  constructor
  · exact dealloc_ignores_args.2.2.1 ⟨1000, 1100, 1000, 0⟩ 0 8 8 rfl
  · exact dealloc_ignores_args.2.2.2 ⟨1000, 1100, 1050, 5⟩ 0 8 8 (by decide)

/-- **C5** (confirmed).  From exactly one live allocation, `dealloc`
zeroes the count and resets the cursor to `heap_start`; allocating and
then releasing as the sole live allocation returns the cursor to
`heap_start`; a `dealloc` that does not bring the count to zero leaves
the cursor unchanged. -/
theorem dealloc_roundtrip :
    (∀ (b : BumpAllocator) (ptr size align : Nat), b.allocations = 1 →
      b.dealloc ptr size align =
        { b with allocations := 0, next := b.heap_start }) ∧
    (∀ (b b' : BumpAllocator) (size align addr ptr s2 a2 : Nat),
      b.allocations = 0 → b.alloc size align = (b', some addr) →
      b'.dealloc ptr s2 a2 =
        { b' with allocations := 0, next := b.heap_start }) ∧
    (∀ (b : BumpAllocator) (ptr size align : Nat),
      (b.dealloc ptr size align).allocations ≠ 0 →
      (b.dealloc ptr size align).next = b.next) := by
  have hone : ∀ (b : BumpAllocator) (ptr size align : Nat), b.allocations = 1 →
      b.dealloc ptr size align =
        { b with allocations := 0, next := b.heap_start } := by
    intro b ptr size align h1
    have hz : (b.allocations + (USIZE - 1)) % USIZE = 0 := by
      rw [h1, Nat.add_comm, Nat.sub_add_cancel USIZE_pos, Nat.mod_self]
    exact dealloc_eq_zero b ptr size align hz
  refine ⟨hone, ?_, ?_⟩
  · intro b b' size align addr ptr s2 a2 h0 halloc
    obtain ⟨-, -, -, hb'⟩ := alloc_some b b' size align addr halloc
    have h1 : b'.allocations = 1 := by
      rw [hb', h0]
      exact Nat.mod_eq_of_lt (by rw [USIZE_eq]; omega)
    rw [hone b' ptr s2 a2 h1]
    have hhs : b'.heap_start = b.heap_start := by rw [hb']
    rw [hhs]
  · intro b ptr size align hnz
    by_cases h : (b.allocations + (USIZE - 1)) % USIZE = 0
    · exfalso
      rw [dealloc_eq_zero b ptr size align h] at hnz
      exact hnz rfl
    · rw [dealloc_eq_pos b ptr size align h]

/-- Witness for C5: a concrete allocate-then-release round trip and a
concrete non-final release. -/
theorem dealloc_roundtrip_witness :
    BumpAllocator.dealloc ⟨1000, 1100, 1008, 1⟩ 1000 8 8 =
      ⟨1000, 1100, 1000, 0⟩ ∧
    (BumpAllocator.dealloc ⟨1000, 1100, 1050, 7⟩ 0 8 8).next = 1050 := by
  constructor
  · have h := dealloc_roundtrip.1 ⟨1000, 1100, 1008, 1⟩ 1000 8 8 rfl
    rw [h]
  · exact dealloc_roundtrip.2.2 ⟨1000, 1100, 1050, 7⟩ 0 8 8 (by decide)
/-- **C10** (confirmed).  The addition inside `align_up` is unchecked:
for any power-of-two `align ≥ 2` and any `addr > usize::MAX - align + 1
- 1 = 2 ^ 64 - align`, the sum `addr + align - 1` wraps, escaping the
`checked_add` in `alloc` (which guards only the size addition): the
rounded cursor comes out as `0`, below `addr`.  Under the precondition
`next ≤ heap_end` and `heap_end + align - 1 ≤ usize::MAX`, the wrap is
unreachable. -/
theorem align_up_overflow_unchecked :
    (∀ (addr k : Nat), 1 ≤ k → k ≤ 63 → USIZE - 2 ^ k < addr → addr < USIZE →
      USIZE ≤ addr + 2 ^ k - 1 ∧
      (addr + 2 ^ k - 1) % USIZE ≠ addr + 2 ^ k - 1 ∧
      align_up addr (2 ^ k) = 0 ∧ align_up addr (2 ^ k) < addr) ∧
    (∀ (next heap_end align : Nat), next ≤ heap_end →
      heap_end + align - 1 < USIZE →
      (next + align - 1) % USIZE = next + align - 1) := by
  constructor
  · intro addr k hk1 hk63 hlo hhi
    have hpow : 2 ^ k ≤ 2 ^ 63 := Nat.pow_le_pow_right (by omega) hk63
    have hpow' : (2 : Nat) ^ 63 < 2 ^ 64 := Nat.pow_lt_pow_right (by omega) (by omega)
    have hp2 : (2 : Nat) ≤ 2 ^ k := by
      calc (2 : Nat) = 2 ^ 1 := rfl
        _ ≤ 2 ^ k := Nat.pow_le_pow_right (by omega) hk1
    rw [USIZE_eq] at *
    have hge : 2 ^ 64 ≤ addr + 2 ^ k - 1 := by omega
    have hmod : (addr + 2 ^ k - 1) % 2 ^ 64 = addr + 2 ^ k - 1 - 2 ^ 64 := by
      rw [Nat.mod_eq_sub_mod hge, Nat.mod_eq_of_lt (by omega)]
    refine ⟨hge, ?_, ?_, ?_⟩
    · rw [hmod]; omega
    · rw [align_up_eq (by omega : k ≤ 64), USIZE_eq, hmod]
      have hsmall : addr + 2 ^ k - 1 - 2 ^ 64 < 2 ^ k := by omega
      rw [Nat.div_eq_of_lt hsmall, Nat.mul_zero]
    · rw [align_up_eq (by omega : k ≤ 64), USIZE_eq, hmod]
      have hsmall : addr + 2 ^ k - 1 - 2 ^ 64 < 2 ^ k := by omega
      rw [Nat.div_eq_of_lt hsmall, Nat.mul_zero]
      omega
  · intro next heap_end align hne hnw
    exact Nat.mod_eq_of_lt (by omega)

/-- Witness for C10: the wrap at `addr = 2 ^ 64 - 1`, `align = 2`, and
the no-wrap case at a small state. -/
theorem align_up_overflow_unchecked_witness :
    align_up (2 ^ 64 - 1) (2 ^ 1) = 0 ∧
    (0 + 8 - 1) % USIZE = 0 + 8 - 1 := by
  constructor
  · exact (align_up_overflow_unchecked.1 (2 ^ 64 - 1) 1 (by decide) (by decide)
      (by decide) (by decide)).2.2.1
  · exact align_up_overflow_unchecked.2 0 10 8 (by decide) (by decide)

/-- C4 counterexample: at `next = 2 ^ 64 - 1` with alignment `2`, the
rounding `(next + align - 1) & !(align - 1)` wraps to `0`, which is not
the least multiple of `2` that is `≥ next` (it is below `next`). -/
theorem align_up_not_least_multiple_cex :
    align_up (2 ^ 64 - 1) 2 = 0 ∧ ¬ (2 ^ 64 - 1 ≤ align_up (2 ^ 64 - 1) 2) := by
  decide

/-- **C4** (amended).  A successful `alloc` at power-of-two alignment
returns a multiple of the alignment — unconditionally; and whenever the
rounding sum `next + align - 1` does not wrap 64 bits, the rounding
`(next + align - 1) & !(align - 1)` equals the least multiple of the
alignment that is `≥ next`. -/
theorem align_up_rounds_to_multiple :
    (∀ (b b' : BumpAllocator) (size k addr : Nat), k ≤ 64 →
      b.alloc size (2 ^ k) = (b', some addr) → 2 ^ k ∣ addr) ∧
    (∀ (next k : Nat), k ≤ 64 → next + 2 ^ k - 1 < USIZE →
      2 ^ k ∣ align_up next (2 ^ k) ∧ next ≤ align_up next (2 ^ k) ∧
      ∀ m, 2 ^ k ∣ m → next ≤ m → align_up next (2 ^ k) ≤ m) := by
  constructor
  · intro b b' size k addr hk h
    obtain ⟨ha, -, -, -⟩ := alloc_some b b' size (2 ^ k) addr h
    rw [ha]
    exact align_up_dvd hk
  · intro next k hk hnw
    obtain ⟨-, h2, h3⟩ := align_up_no_wrap hk hnw
    exact ⟨align_up_dvd hk, h2, h3⟩

/-- Witness for C4: a concrete successful allocation at alignment
`2 ^ 3` whose address is a multiple of `8`, and the rounding of `5` to
alignment `4`. -/
theorem align_up_rounds_to_multiple_witness :
    (2 ^ 3 ∣ (1000 : Nat)) ∧
    2 ^ 2 ∣ align_up 5 (2 ^ 2) ∧ 5 ≤ align_up 5 (2 ^ 2) := by
  refine ⟨?_, ?_, ?_⟩
  · exact align_up_rounds_to_multiple.1 (BumpAllocator.new.init 1000 100)
      ⟨1000, 1100, 1008, 1⟩ 8 3 1000 (by decide) (by decide)
  · exact (align_up_rounds_to_multiple.2 5 2 (by decide) (by decide)).1
  · exact (align_up_rounds_to_multiple.2 5 2 (by decide) (by decide)).2.1

/-! ### The bump state invariant along operation sequences -/

/-- An alignment acceptable for a heap ending at `heap_end`: a power of
two whose rounding arithmetic cannot wrap 64 bits from inside the
heap. -/
def goodAlign (heap_end align : Nat) : Prop :=
  ∃ k, align = 2 ^ k ∧ heap_end + align ≤ USIZE

/-- A heap operation whose alignment is acceptable for `heap_end`. -/
def goodOp (heap_end : Nat) : HeapOp → Prop
  | .alloc _ align => goodAlign heap_end align
  | .dealloc _ _ _ => True

theorem goodAlign_k_le {heap_end align : Nat} (h : goodAlign heap_end align) :
    ∃ k, align = 2 ^ k ∧ k ≤ 64 ∧ heap_end + align ≤ USIZE := by
  obtain ⟨k, hk, hle⟩ := h
  refine ⟨k, hk, ?_, hle⟩
  by_contra hgt
  have h64 : (2 : Nat) ^ 64 < 2 ^ k := Nat.pow_lt_pow_right (by omega) (by omega)
  rw [USIZE_eq] at hle
  omega

/-- `alloc` does not move the heap bounds. -/
theorem alloc_bounds (b : BumpAllocator) (size align : Nat) :
    ((b.alloc size align).1).heap_start = b.heap_start ∧
    ((b.alloc size align).1).heap_end = b.heap_end := by
  have hs := alloc_spec b size align
  rcases lt_or_ge (align_up b.next align + size) USIZE with h1 | h1
  · rcases le_or_lt (align_up b.next align + size) b.heap_end with h2 | h2
    · rw [hs.2.2 h1 h2]; exact ⟨rfl, rfl⟩
    · rw [hs.2.1 h1 h2]; exact ⟨rfl, rfl⟩
  · rw [hs.1 h1]; exact ⟨rfl, rfl⟩

/-- `dealloc` does not move the heap bounds. -/
theorem dealloc_bounds (b : BumpAllocator) (ptr size align : Nat) :
    (b.dealloc ptr size align).heap_start = b.heap_start ∧
    (b.dealloc ptr size align).heap_end = b.heap_end := by
  by_cases h : (b.allocations + (USIZE - 1)) % USIZE = 0
  · rw [dealloc_eq_zero b ptr size align h]; exact ⟨rfl, rfl⟩
  · rw [dealloc_eq_pos b ptr size align h]; exact ⟨rfl, rfl⟩

/-- An operation does not move the heap bounds. -/
theorem runOp_bounds (b : BumpAllocator) (op : HeapOp) :
    (runOp b op).heap_start = b.heap_start ∧
    (runOp b op).heap_end = b.heap_end := by
  cases op with
  | alloc size align => exact alloc_bounds b size align
  | dealloc ptr size align => exact dealloc_bounds b ptr size align

/-- A single `alloc` with an acceptable alignment preserves the state
invariant. -/
theorem alloc_inv (b : BumpAllocator) (size align : Nat)
    (hinv : heapInv b) (hga : goodAlign b.heap_end align) :
    heapInv (b.alloc size align).1 := by
  obtain ⟨k, rfl, hk64, hle⟩ := goodAlign_k_le hga
  have hpos : 0 < 2 ^ k := Nat.pos_pow_of_pos k (by omega)
  have hnw : b.next + 2 ^ k - 1 < USIZE := by
    have h2 := hinv.2
    omega
  have hup := (align_up_no_wrap hk64 hnw).2.1
  have hs := alloc_spec b size (2 ^ k)
  rcases lt_or_ge (align_up b.next (2 ^ k) + size) USIZE with h1 | h1
  · rcases le_or_lt (align_up b.next (2 ^ k) + size) b.heap_end with h2 | h2
    · rw [hs.2.2 h1 h2]
      exact ⟨by have := hinv.1; simp only []; omega, by simp only []; omega⟩
    · rw [hs.2.1 h1 h2]; exact hinv
  · rw [hs.1 h1]; exact hinv

/-- A single `dealloc` preserves the state invariant. -/
theorem dealloc_inv (b : BumpAllocator) (ptr size align : Nat)
    (hinv : heapInv b) : heapInv (b.dealloc ptr size align) := by
  by_cases h : (b.allocations + (USIZE - 1)) % USIZE = 0
  · rw [dealloc_eq_zero b ptr size align h]
    exact ⟨le_refl _, le_trans hinv.1 hinv.2⟩
  · rw [dealloc_eq_pos b ptr size align h]
    exact ⟨hinv.1, hinv.2⟩

/-- Sequences of acceptable operations preserve the state invariant. -/
theorem runOps_inv : ∀ (ops : List HeapOp) (b : BumpAllocator),
    heapInv b → (∀ op ∈ ops, goodOp b.heap_end op) →
    heapInv (runOps ops b) := by
  intro ops
  induction ops with
  | nil => intro b hinv _; exact hinv
  | cons op ops ih =>
    intro b hinv hops
    have hstep : heapInv (runOp b op) := by
      cases op with
      | alloc size align =>
        exact alloc_inv b size align hinv (hops _ (List.mem_cons_self _ _))
      | dealloc ptr size align => exact dealloc_inv b ptr size align hinv
    have hrest : ∀ op' ∈ ops, goodOp (runOp b op).heap_end op' := by
      intro op' hmem
      rw [(runOp_bounds b op).2]
      exact hops _ (List.mem_cons_of_mem _ hmem)
    exact ih (runOp b op) hstep hrest

/-- C1 counterexample: initialize the allocator at
`heap_start = 2 ^ 64 - 4096` with `heap_size = 0` (no overflow in
`init` itself) and request a zero-sized allocation at the legal
power-of-two alignment `2 ^ 63`.  The rounding wraps, the allocation
"succeeds" at address `0`, and the cursor lands below `heap_start`:
the invariant `heap_start ≤ next` is broken. -/
theorem bump_inv_counterexample :
    ¬ heapInv (runOps [HeapOp.alloc 0 (2 ^ 63)]
        (BumpAllocator.new.init (2 ^ 64 - 4096) 0)) := by
  decide

/-- **C1** (amended).  After `init(heap_start, heap_size)` with a
non-overflowing bound, every sequence of `alloc` and `dealloc`
operations whose alignments are powers of two small enough that the
rounding cannot wrap (`heap_end + align ≤ 2 ^ 64`) preserves
`heap_start ≤ next ≤ heap_end`; and whenever a `dealloc` brings the
count to `0`, the cursor is reset to `heap_start`. -/
theorem bump_inv_preservation (heap_start heap_size : Nat)
    (ops : List HeapOp) (h1 : heap_start + heap_size < USIZE)
    (h2 : ∀ op ∈ ops, goodOp (heap_start + heap_size) op) :
    heapInv (runOps ops (BumpAllocator.new.init heap_start heap_size)) ∧
    (∀ (b : BumpAllocator) (ptr size align : Nat),
      (b.dealloc ptr size align).allocations = 0 →
      (b.dealloc ptr size align).next = b.heap_start) := by
  constructor
  · have hend : (BumpAllocator.new.init heap_start heap_size).heap_end =
        heap_start + heap_size := Nat.mod_eq_of_lt h1
    have hnext : (BumpAllocator.new.init heap_start heap_size).next =
        heap_start := rfl
    apply runOps_inv
    · exact ⟨le_refl _, by rw [hend, hnext]; omega⟩
    · rw [hend]; exact h2
  · intro b ptr size align hz
    by_cases h : (b.allocations + (USIZE - 1)) % USIZE = 0
    · rw [dealloc_eq_zero b ptr size align h]
    · exfalso
      rw [dealloc_eq_pos b ptr size align h] at hz
      exact h hz

/-- Witness for C1: a concrete allocate-then-release sequence on the
heap `[1000, 1100)` keeps the invariant. -/
theorem bump_inv_preservation_witness :
    heapInv (runOps [HeapOp.alloc 8 8, HeapOp.dealloc 0 8 8]
      (BumpAllocator.new.init 1000 100)) := by
  refine (bump_inv_preservation 1000 100 _ (by decide) ?_).1
  intro op hop
  fin_cases hop
  · exact ⟨3, rfl, by decide⟩
  · trivial

/-! ### Separation of allocated blocks (C3) -/

/-- Run a list of allocation requests `(size, align)` through the
allocator, collecting the `(address, size)` pairs of the successful
ones. -/
def allocRun (b : BumpAllocator) : List (Nat × Nat) → List (Nat × Nat)
  | [] => []
  | (size, align) :: reqs =>
    match b.alloc size align with
    | (b', some addr) => (addr, size) :: allocRun b' reqs
    | (b', none) => allocRun b' reqs

theorem allocRun_cons (b : BumpAllocator) (size align : Nat)
    (reqs : List (Nat × Nat)) :
    allocRun b ((size, align) :: reqs) =
      match b.alloc size align with
      | (b', some addr) => (addr, size) :: allocRun b' reqs
      | (b', none) => allocRun b' reqs := rfl

/-- Every block produced by a run of acceptable positive requests lies
between the cursor and the heap end. -/
theorem allocRun_below : ∀ (reqs : List (Nat × Nat)) (b : BumpAllocator),
    b.next ≤ b.heap_end → (∀ r ∈ reqs, goodAlign b.heap_end r.2) →
    ∀ p ∈ allocRun b reqs, b.next ≤ p.1 ∧ p.1 + p.2 ≤ b.heap_end := by
  intro reqs
  induction reqs with
  | nil => intro b _ _ p hp; simp [allocRun] at hp
  | cons r reqs ih =>
    intro b hne hgood p hp
    obtain ⟨size, align⟩ := r
    rw [allocRun_cons] at hp
    rcases hres : b.alloc size align with ⟨b', res⟩
    cases res with
    | none =>
      rw [hres] at hp
      simp only [] at hp
      have hb : b' = b := alloc_none b b' size align hres
      rw [hb] at hp
      exact ih b hne (fun r hr => hgood r (List.mem_cons_of_mem _ hr)) p hp
    | some addr =>
      rw [hres] at hp
      simp only [List.mem_cons] at hp
      obtain ⟨k, hk, hk64, hle⟩ :=
        goodAlign_k_le (hgood (size, align) (List.mem_cons_self _ _))
      dsimp only at hk hle
      rw [hk] at hres
      obtain ⟨ha, hov, hfit, hb'⟩ := alloc_some b b' size (2 ^ k) addr hres
      have hpos : 0 < 2 ^ k := Nat.pos_pow_of_pos k (by omega)
      have hnw : b.next + 2 ^ k - 1 < USIZE := by omega
      have hup : b.next ≤ addr := by
        rw [ha]; exact (align_up_no_wrap hk64 hnw).2.1
      cases hp with
      | inl hhead => rw [hhead]; exact ⟨hup, hfit⟩
      | inr htail =>
        have hne' : b'.next ≤ b'.heap_end := by rw [hb']; exact hfit
        have hgood' : ∀ r ∈ reqs, goodAlign b'.heap_end r.2 := by
          intro r hr
          have : b'.heap_end = b.heap_end := by rw [hb']
          rw [this]
          exact hgood r (List.mem_cons_of_mem _ hr)
        have := ih b' hne' hgood' p htail
        have hnext' : b'.next = addr + size := by rw [hb']
        have hend' : b'.heap_end = b.heap_end := by rw [hb']
        rw [hnext', hend'] at this
        exact ⟨by omega, this.2⟩

/-- Successful blocks of a run are produced at weakly increasing,
non-overlapping positions. -/
theorem allocRun_pairwise : ∀ (reqs : List (Nat × Nat)) (b : BumpAllocator),
    b.next ≤ b.heap_end → (∀ r ∈ reqs, goodAlign b.heap_end r.2) →
    (allocRun b reqs).Pairwise (fun p q => p.1 + p.2 ≤ q.1) := by
  intro reqs
  induction reqs with
  | nil => intro b _ _; simp [allocRun]
  | cons r reqs ih =>
    intro b hne hgood
    obtain ⟨size, align⟩ := r
    rcases hres : b.alloc size align with ⟨b', res⟩
    rw [allocRun_cons, hres]
    cases res with
    | none =>
      have hb : b' = b := alloc_none b b' size align hres
      dsimp only
      rw [hb]
      exact ih b hne (fun r hr => hgood r (List.mem_cons_of_mem _ hr))
    | some addr =>
      dsimp only
      obtain ⟨k, hk, hk64, hle⟩ :=
        goodAlign_k_le (hgood (size, align) (List.mem_cons_self _ _))
      dsimp only at hk hle
      rw [hk] at hres
      obtain ⟨ha, hov, hfit, hb'⟩ := alloc_some b b' size (2 ^ k) addr hres
      have hne' : b'.next ≤ b'.heap_end := by rw [hb']; exact hfit
      have hgood' : ∀ r ∈ reqs, goodAlign b'.heap_end r.2 := by
        intro r hr
        have hbe : b'.heap_end = b.heap_end := by rw [hb']
        rw [hbe]
        exact hgood r (List.mem_cons_of_mem _ hr)
      refine List.Pairwise.cons ?_ (ih b' hne' hgood')
      intro q hq
      have hqb := allocRun_below reqs b' hne' hgood' q hq
      have hnext' : b'.next = addr + size := by rw [hb']
      rw [hnext'] at hqb
      exact hqb.1

/-- All sizes in a run of positive requests are positive. -/
theorem allocRun_sizes : ∀ (reqs : List (Nat × Nat)) (b : BumpAllocator),
    (∀ r ∈ reqs, 1 ≤ r.1) → ∀ p ∈ allocRun b reqs, 1 ≤ p.2 := by
  intro reqs
  induction reqs with
  | nil => intro b _ p hp; simp [allocRun] at hp
  | cons r reqs ih =>
    intro b hsz p hp
    obtain ⟨size, align⟩ := r
    rw [allocRun_cons] at hp
    rcases hres : b.alloc size align with ⟨b', res⟩
    cases res with
    | none =>
      rw [hres] at hp
      exact ih b' (fun r hr => hsz r (List.mem_cons_of_mem _ hr)) p hp
    | some addr =>
      rw [hres] at hp
      simp only [List.mem_cons] at hp
      cases hp with
      | inl hhead =>
        rw [hhead]
        exact hsz (size, align) (List.mem_cons_self _ _)
      | inr htail =>
        exact ih b' (fun r hr => hsz r (List.mem_cons_of_mem _ hr)) p htail

/-- C3 counterexample: two zero-sized requests both succeed at the same
address, so the returned addresses are not pairwise distinct (their
cumulative padded size, `0`, trivially fits the heap). -/
theorem alloc_addresses_counterexample :
    allocRun (BumpAllocator.new.init 1000 100) [(0, 1), (0, 1)] =
      [(1000, 0), (1000, 0)] ∧
    ¬ ((allocRun (BumpAllocator.new.init 1000 100)
        [(0, 1), (0, 1)]).map Prod.fst).Pairwise (· ≠ ·) := by
  constructor
  · decide
  · intro h
    have h1 : allocRun (BumpAllocator.new.init 1000 100) [(0, 1), (0, 1)] =
        [(1000, 0), (1000, 0)] := by decide
    rw [h1] at h
    simp only [List.map_cons, List.map_nil] at h
    exact List.rel_of_pairwise_cons h (List.mem_cons_self _ _) rfl

/-- **C3** (amended).  For every sequence of positive-size requests at
acceptable power-of-two alignments, the successful addresses are
pairwise distinct, the byte ranges `[address, address + size)` are
pairwise non-overlapping, and every address lies inside
`[heap_start, heap_end)`. -/
theorem alloc_addresses_separated (b : BumpAllocator)
    (reqs : List (Nat × Nat)) (hinv : heapInv b)
    (hreq : ∀ r ∈ reqs, 1 ≤ r.1 ∧ goodAlign b.heap_end r.2) :
    ((allocRun b reqs).map Prod.fst).Pairwise (· ≠ ·) ∧
    (allocRun b reqs).Pairwise
      (fun p q => p.1 + p.2 ≤ q.1 ∨ q.1 + q.2 ≤ p.1) ∧
    (∀ p ∈ allocRun b reqs,
      b.heap_start ≤ p.1 ∧ p.1 < b.heap_end ∧ p.1 + p.2 ≤ b.heap_end) := by
  have hga : ∀ r ∈ reqs, goodAlign b.heap_end r.2 := fun r hr => (hreq r hr).2
  have hsz : ∀ r ∈ reqs, 1 ≤ r.1 := fun r hr => (hreq r hr).1
  have hpw := allocRun_pairwise reqs b hinv.2 hga
  have hbelow := allocRun_below reqs b hinv.2 hga
  have hsizes := allocRun_sizes reqs b hsz
  refine ⟨?_, ?_, ?_⟩
  · rw [List.pairwise_map]
    refine hpw.imp_of_mem ?_
    intro p q hp hq hle
    have h1 := hsizes p hp
    omega
  · exact hpw.imp (fun h => Or.inl h)
  · intro p hp
    have h1 := hbelow p hp
    have h2 := hsizes p hp
    have h3 := hinv.1
    exact ⟨by omega, by omega, h1.2⟩

/-- Witness for C3: two concrete positive requests on the heap
`[1000, 1100)` give distinct addresses. -/
theorem alloc_addresses_separated_witness :
    ((allocRun (BumpAllocator.new.init 1000 100)
      [(8, 1), (16, 2)]).map Prod.fst).Pairwise (· ≠ ·) := by
  refine (alloc_addresses_separated (BumpAllocator.new.init 1000 100)
    [(8, 1), (16, 2)] (by decide) ?_).1
  intro r hr
  fin_cases hr
  · exact ⟨by decide, 0, rfl, by decide⟩
  · exact ⟨by decide, 1, rfl, by decide⟩

/-! ### Boot-info frame allocator (`src/memory.rs`) -/

/-- Region classification from the boot loader's memory map
(`bootloader::bootinfo::MemoryRegionType`, abridged to the variants the
kernel distinguishes: `Usable` versus everything else). -/
inductive MemoryRegionType where
  | Usable
  | InUse
  | Reserved
  | Kernel
  | Bootloader
deriving DecidableEq

/-- `bootloader::bootinfo::FrameRange`: region bounds are stored as
4096-byte frame numbers, so the derived addresses are frame-aligned by
construction of the type. -/
structure FrameRange where
  start_frame_number : Nat
  end_frame_number : Nat
deriving DecidableEq

/-- `FrameRange::start_addr`. -/
def FrameRange.start_addr (r : FrameRange) : Nat := r.start_frame_number * 4096

/-- `FrameRange::end_addr` (exclusive). -/
def FrameRange.end_addr (r : FrameRange) : Nat := r.end_frame_number * 4096

/-- `bootloader::bootinfo::MemoryRegion`. -/
structure MemoryRegion where
  range : FrameRange
  region_type : MemoryRegionType
deriving DecidableEq

/-- The boot memory map: an ordered sequence of regions. -/
abbrev MemoryMap := List MemoryRegion

/-- Rust's `(start..stop).step_by(step)` for `step > 0`: the values
`start + step * i` while below `stop`. -/
def stepBy (start stop step : Nat) : List Nat :=
  (List.range ((stop - start + step - 1) / step)).map (fun i => start + step * i)

/-- `PhysFrame::containing_address`: the 4096-aligned start address of
the frame containing `addr` (a frame is identified by its start
address). -/
def containing_address (addr : Nat) : Nat := addr / 4096 * 4096

/-- The frame allocator state from `src/memory.rs`. -/
structure BootInfoFrameAllocator where
  memory_map : MemoryMap
  next : Nat
deriving DecidableEq

/-- `BootInfoFrameAllocator::init`. -/
def BootInfoFrameAllocator.init (memory_map : MemoryMap) :
    BootInfoFrameAllocator :=
  { memory_map := memory_map, next := 0 }

/-- `BootInfoFrameAllocator::usable_frames`: filter the map to usable
regions, expand each region to its address range, step through it by
4096, and take the containing frame of each address. -/
def usable_frames (m : MemoryMap) : List Nat :=
  let regions := m
  let usable_regions :=
    regions.filter (fun r => r.region_type == MemoryRegionType.Usable)
  let addr_ranges :=
    usable_regions.map (fun r => (r.range.start_addr, r.range.end_addr))
  let frame_addresses := addr_ranges.flatMap (fun p => stepBy p.1 p.2 4096)
  frame_addresses.map containing_address

/-- `allocate_frame`: look up the `next`-th usable frame and advance
the cursor (also on failure). -/
def BootInfoFrameAllocator.allocate_frame (s : BootInfoFrameAllocator) :
    Option Nat × BootInfoFrameAllocator :=
  ((usable_frames s.memory_map).get? s.next, { s with next := s.next + 1 })

/-- The allocator state after `n` calls to `allocate_frame`. -/
def allocState (m : MemoryMap) : Nat → BootInfoFrameAllocator
  | 0 => BootInfoFrameAllocator.init m
  | n + 1 => ((allocState m n).allocate_frame).2

/-- The result of the `n`-th (0-based) call to `allocate_frame`,
starting from a freshly initialized allocator. -/
def nthAlloc (m : MemoryMap) (n : Nat) : Option Nat :=
  ((allocState m n).allocate_frame).1

/-- The frame addresses contributed by one region: one per frame
number in the region's bounds. -/
def region_frames (r : MemoryRegion) : List Nat :=
  (List.range (r.range.end_frame_number - r.range.start_frame_number)).map
    (fun i => (r.range.start_frame_number + i) * 4096)

theorem allocState_spec (m : MemoryMap) : ∀ n : Nat,
    (allocState m n).memory_map = m ∧ (allocState m n).next = n := by
  intro n
  induction n with
  | zero => exact ⟨rfl, rfl⟩
  | succ n ih =>
    refine ⟨?_, ?_⟩
    · show (allocState m n).memory_map = m
      exact ih.1
    · show (allocState m n).next + 1 = n + 1
      rw [ih.2]

theorem nthAlloc_eq (m : MemoryMap) (n : Nat) :
    nthAlloc m n = (usable_frames m).get? n := by
  show (usable_frames (allocState m n).memory_map).get? (allocState m n).next =
    (usable_frames m).get? n
  rw [(allocState_spec m n).1, (allocState_spec m n).2]

theorem stepBy_region (s e : Nat) :
    stepBy (s * 4096) (e * 4096) 4096 =
      (List.range (e - s)).map (fun i => s * 4096 + 4096 * i) := by
  unfold stepBy
  congr 1
  have h1 : e * 4096 - s * 4096 = (e - s) * 4096 := (Nat.sub_mul e s 4096).symm
  rw [h1]
  have h2 : (e - s) * 4096 + 4096 - 1 = 4095 + 4096 * (e - s) := by omega
  rw [h2, Nat.add_mul_div_left _ _ (by omega : 0 < 4096)]
  norm_num

theorem region_frames_eq (r : MemoryRegion) :
    (stepBy r.range.start_addr r.range.end_addr 4096).map containing_address =
      region_frames r := by
  rw [FrameRange.start_addr, FrameRange.end_addr, stepBy_region, List.map_map]
  unfold region_frames
  apply List.map_congr_left
  intro i hi
  show (r.range.start_frame_number * 4096 + 4096 * i) / 4096 * 4096 =
    (r.range.start_frame_number + i) * 4096
  have h : r.range.start_frame_number * 4096 + 4096 * i =
      (r.range.start_frame_number + i) * 4096 := by ring
  rw [h, Nat.mul_div_cancel _ (by omega : 0 < 4096)]

theorem usable_frames_eq (m : MemoryMap) :
    usable_frames m =
      (m.filter (fun r => r.region_type == MemoryRegionType.Usable)).flatMap
        region_frames := by
  simp only [usable_frames]
  rw [List.flatMap_map, List.map_flatMap]
  simp only [List.flatMap]
  exact congrArg List.flatten
    (List.map_congr_left (fun r _ => region_frames_eq r))

theorem region_frames_mem {r : MemoryRegion} {x : Nat}
    (hx : x ∈ region_frames r) :
    4096 ∣ x ∧ r.range.start_addr ≤ x ∧ x + 4096 ≤ r.range.end_addr := by
  unfold region_frames at hx
  rw [List.mem_map] at hx
  obtain ⟨i, hi, rfl⟩ := hx
  rw [List.mem_range] at hi
  refine ⟨⟨r.range.start_frame_number + i, by ring⟩, ?_, ?_⟩
  · rw [FrameRange.start_addr]
    have h := Nat.le_add_right r.range.start_frame_number i
    exact Nat.mul_le_mul_right 4096 h
  · rw [FrameRange.end_addr]
    have h : r.range.start_frame_number + i + 1 ≤ r.range.end_frame_number := by
      omega
    calc (r.range.start_frame_number + i) * 4096 + 4096
        = (r.range.start_frame_number + i + 1) * 4096 := by ring
      _ ≤ r.range.end_frame_number * 4096 := Nat.mul_le_mul_right 4096 h

theorem region_frames_sorted (r : MemoryRegion) :
    (region_frames r).Pairwise (· < ·) := by
  unfold region_frames
  rw [List.pairwise_map]
  exact (List.pairwise_lt_range _).imp (fun h => by omega)

/-- The boot map is well-formed: the regions appear in address order and
do not overlap. -/
def map_ordered (m : MemoryMap) : Prop :=
  m.Pairwise
    (fun r1 r2 => r1.range.end_frame_number ≤ r2.range.start_frame_number)

theorem usable_frames_sorted {m : MemoryMap} (h : map_ordered m) :
    (usable_frames m).Pairwise (· < ·) := by
  rw [usable_frames_eq, List.pairwise_flatMap]
  constructor
  · intro r _
    exact region_frames_sorted r
  · refine (h.filter _).imp ?_
    intro r1 r2 hle x hx y hy
    obtain ⟨-, hx1, hx2⟩ := region_frames_mem hx
    obtain ⟨-, hy1, hy2⟩ := region_frames_mem hy
    rw [FrameRange.end_addr] at hx2
    rw [FrameRange.start_addr] at hy1
    have h12 : r1.range.end_frame_number * 4096 ≤
        r2.range.start_frame_number * 4096 := Nat.mul_le_mul_right 4096 hle
    omega

theorem sorted_get_lt {l : List Nat} (hs : l.Pairwise (· < ·))
    {i j a b : Nat} (hij : i < j) (ha : l.get? i = some a)
    (hb : l.get? j = some b) : a < b := by
  rw [List.get?_eq_some] at ha hb
  obtain ⟨hi, rfl⟩ := ha
  obtain ⟨hj, rfl⟩ := hb
  exact List.pairwise_iff_get.mp hs ⟨i, hi⟩ ⟨j, hj⟩ hij

/-- C6 counterexample: a memory map that repeats the same usable region
makes the 0th and 1st calls return the same frame, so "the n-th and
(n+1)-th returned frames differ" and "no frame is ever returned twice"
fail for an arbitrary memory map. -/
theorem frame_allocator_counterexample :
    nthAlloc [⟨⟨0, 1⟩, MemoryRegionType.Usable⟩,
              ⟨⟨0, 1⟩, MemoryRegionType.Usable⟩] 0 = some 0 ∧
    nthAlloc [⟨⟨0, 1⟩, MemoryRegionType.Usable⟩,
              ⟨⟨0, 1⟩, MemoryRegionType.Usable⟩] 1 = some 0 := by
  constructor <;> rfl

/-- **C6** (amended).  Over every well-formed (ordered, non-overlapping)
memory map: every returned frame is 4096-aligned and wholly contained in
some usable region of the map; frames are returned through a strictly
increasing cursor in map order, so consecutive successful frames are
strictly increasing and no frame is ever returned twice; and once a call
returns `none`, every later call returns `none`. -/
theorem frame_allocator_correct (m : MemoryMap) (hord : map_ordered m) :
    (∀ n f, nthAlloc m n = some f →
      4096 ∣ f ∧
      ∃ r ∈ m, r.region_type = MemoryRegionType.Usable ∧
        r.range.start_addr ≤ f ∧ f + 4096 ≤ r.range.end_addr) ∧
    (∀ n f g, nthAlloc m n = some f → nthAlloc m (n + 1) = some g → f < g) ∧
    (∀ i j f g, i < j → nthAlloc m i = some f → nthAlloc m j = some g →
      f ≠ g) ∧
    (∀ n, nthAlloc m n = none → ∀ j, n ≤ j → nthAlloc m j = none) := by
  have hsorted := usable_frames_sorted hord
  refine ⟨?_, ?_, ?_, ?_⟩
  · intro n f hn
    rw [nthAlloc_eq] at hn
    have hmem : f ∈ usable_frames m := by
      rw [List.get?_eq_some] at hn
      obtain ⟨h, rfl⟩ := hn
      exact List.get_mem _ _ h
    rw [usable_frames_eq, List.mem_flatMap] at hmem
    obtain ⟨r, hr, hf⟩ := hmem
    rw [List.mem_filter] at hr
    obtain ⟨hdvd, h1, h2⟩ := region_frames_mem hf
    exact ⟨hdvd, r, hr.1, by
      have := hr.2
      rwa [beq_iff_eq] at this, h1, h2⟩
  · intro n f g hn hg
    rw [nthAlloc_eq] at hn hg
    exact sorted_get_lt hsorted (Nat.lt_succ_self n) hn hg
  · intro i j f g hij hi hj
    rw [nthAlloc_eq] at hi hj
    exact Nat.ne_of_lt (sorted_get_lt hsorted hij hi hj)
  · intro n hn j hj
    rw [nthAlloc_eq] at hn ⊢
    rw [List.get?_eq_none] at hn ⊢
    omega

/-- Witness for C6: on the one-region map `[frames 16..18, usable]` the
first two frames are `65536` and `69632`: the first is aligned and the
two differ. -/
theorem frame_allocator_correct_witness :
    nthAlloc [⟨⟨16, 18⟩, MemoryRegionType.Usable⟩] 0 = some 65536 ∧
    4096 ∣ (65536 : Nat) ∧ (65536 : Nat) < 69632 := by
  have hord : map_ordered [⟨⟨16, 18⟩, MemoryRegionType.Usable⟩] := by
    unfold map_ordered
    exact List.pairwise_singleton _ _
  have h := frame_allocator_correct [⟨⟨16, 18⟩, MemoryRegionType.Usable⟩] hord
  refine ⟨by rfl, (h.1 0 65536 (by rfl)).1, ?_⟩
  exact h.2.1 0 65536 69632 (by rfl) (by rfl)

/-! ### Heap initialization (`src/allocator.rs`) -/

/-- `HEAP_START` from `src/allocator.rs` (`0x_4444_4444_0000`). -/
def HEAP_START : Nat := 0x444444440000

/-- `HEAP_SIZE`: 100 KiB. -/
def HEAP_SIZE : Nat := 100 * 1024

/-- `PageTableFlags::PRESENT`. -/
def PRESENT : Nat := 1

/-- `PageTableFlags::WRITABLE`. -/
def WRITABLE : Nat := 2

/-- `Page::containing_address` at the level of 4096-byte page
numbers. -/
def page_containing (v : Nat) : Nat := v / 4096

/-- The inclusive page range computed by `init_heap`: the page of
`HEAP_START` through the page of `HEAP_START + HEAP_SIZE - 1`. -/
def page_range : List Nat :=
  List.range' (page_containing HEAP_START)
    (page_containing (HEAP_START + HEAP_SIZE - 1) + 1 -
      page_containing HEAP_START)

/-- `MapToError` outcomes of `Mapper::map_to`. -/
inductive MapToError where
  | FrameAllocationFailed
  | ParentEntryHugePage
  | PageAlreadyMapped
deriving DecidableEq

/-- One observed `map_to` call followed by its `flush`: which page was
mapped to which frame with which flags, and whether the translation was
flushed. -/
structure MapCall where
  page : Nat
  frame : Nat
  flags : Nat
  flushed : Bool
deriving DecidableEq

/-- The per-page loop of `init_heap`, generic over the frame-allocator
state `σ` (as the Rust function is generic over
`impl FrameAllocator<Size4KiB>`) and over the mapper, abstracted by the
outcome `map_to p f` of mapping page `p` to frame `f` (the mapper can
fail internally, e.g. allocating intermediate table levels).
Successful calls are logged with the flags passed and the flush
performed. -/
def init_heap_go {σ : Type} (allocate_frame : σ → Option Nat × σ)
    (map_to : Nat → Nat → Option MapToError) :
    List Nat → σ → List MapCall → Except MapToError Unit × List MapCall × σ
  | [], s, log => (Except.ok (), log, s)
  | p :: ps, s, log =>
    match allocate_frame s with
    | (none, s') => (Except.error MapToError.FrameAllocationFailed, log, s')
    | (some f, s') =>
      match map_to p f with
      | some e => (Except.error e, log, s')
      | none =>
        init_heap_go allocate_frame map_to ps s'
          (log ++ [{ page := p, frame := f, flags := PRESENT ||| WRITABLE,
                     flushed := true }])

/-- `init_heap`: walk the heap page range, mapping each page to a
freshly allocated frame; on success initialize the global bump
allocator (`g`) with exactly the heap window; on failure return the
error with `g` untouched. -/
def init_heap {σ : Type} (allocate_frame : σ → Option Nat × σ)
    (map_to : Nat → Nat → Option MapToError) (s : σ) (g : BumpAllocator) :
    Except MapToError Unit × List MapCall × σ × BumpAllocator :=
  match init_heap_go allocate_frame map_to page_range s [] with
  | (Except.ok _, log, s') =>
    (Except.ok (), log, s', g.init HEAP_START HEAP_SIZE)
  | (Except.error e, log, s') => (Except.error e, log, s', g)

theorem init_heap_go_spec {σ : Type} (af : σ → Option Nat × σ)
    (mt : Nat → Nat → Option MapToError) :
    ∀ (ps : List Nat) (s : σ) (log : List MapCall),
    ∃ new : List MapCall,
      (init_heap_go af mt ps s log).2.1 = log ++ new ∧
      new.map MapCall.page = ps.take new.length ∧
      (∀ c ∈ new, c.flags = (PRESENT ||| WRITABLE) ∧ c.flushed = true) ∧
      ((init_heap_go af mt ps s log).1 = Except.ok () →
        new.map MapCall.page = ps) := by
  intro ps
  induction ps with
  | nil =>
    intro s log
    exact ⟨[], by simp [init_heap_go], by simp, by simp, fun _ => by simp⟩
  | cons p ps ih =>
    intro s log
    rcases haf : af s with ⟨fo, s'⟩
    cases fo with
    | none =>
      refine ⟨[], ?_, by simp, by simp, ?_⟩
      · simp [init_heap_go, haf]
      · intro hok
        exfalso
        simp [init_heap_go, haf] at hok
    | some f =>
      cases hmt : mt p f with
      | some e =>
        refine ⟨[], ?_, by simp, by simp, ?_⟩
        · simp [init_heap_go, haf, hmt]
        · intro hok
          exfalso
          simp [init_heap_go, haf, hmt] at hok
      | none =>
        obtain ⟨new, h1, h2, h3, h4⟩ :=
          ih s' (log ++ [MapCall.mk p f (PRESENT ||| WRITABLE) true])
        have hgo : init_heap_go af mt (p :: ps) s log =
            init_heap_go af mt ps s'
              (log ++ [MapCall.mk p f (PRESENT ||| WRITABLE) true]) := by
          simp [init_heap_go, haf, hmt]
        refine ⟨MapCall.mk p f (PRESENT ||| WRITABLE) true :: new,
          ?_, ?_, ?_, ?_⟩
        · rw [hgo, h1, List.append_assoc, List.singleton_append]
        · rw [List.map_cons, h2]
          rfl
        · intro c hc
          rcases List.mem_cons.mp hc with rfl | hc'
          · exact ⟨rfl, rfl⟩
          · exact h3 c hc'
        · intro hok
          rw [hgo] at hok
          rw [List.map_cons, h4 hok]

/-- **C7** (confirmed, against an abstract mapper and frame allocator:
`init_heap` is generic over both).  The computed inclusive page range
covers exactly the window `[HEAP_START, HEAP_START + HEAP_SIZE)`; every
mapping performed uses exactly the `PRESENT | WRITABLE` flags and is
flushed; pages are processed in range order with no rollback; on any
failure the error is returned and the bump allocator is left
uninitialized; a frame-allocation failure at any page aborts
immediately with `FrameAllocationFailed`; on success every page of the
range was mapped and the bump allocator is seeded with exactly the
window. -/
theorem init_heap_correct {σ : Type} (allocate_frame : σ → Option Nat × σ)
    (map_to : Nat → Nat → Option MapToError) (s : σ) (g : BumpAllocator) :
    (∀ addr, (HEAP_START ≤ addr ∧ addr < HEAP_START + HEAP_SIZE) ↔
      ∃ p ∈ page_range, p * 4096 ≤ addr ∧ addr < p * 4096 + 4096) ∧
    (∀ c ∈ (init_heap allocate_frame map_to s g).2.1,
      c.flags = (PRESENT ||| WRITABLE) ∧ c.flushed = true) ∧
    ((init_heap allocate_frame map_to s g).2.1.map MapCall.page =
      page_range.take (init_heap allocate_frame map_to s g).2.1.length) ∧
    (∀ e, (init_heap allocate_frame map_to s g).1 = Except.error e →
      (init_heap allocate_frame map_to s g).2.2.2 = g) ∧
    (∀ (p : Nat) (ps : List Nat) (s1 : σ) (log1 : List MapCall),
      (allocate_frame s1).1 = none →
      init_heap_go allocate_frame map_to (p :: ps) s1 log1 =
        (Except.error MapToError.FrameAllocationFailed, log1,
          (allocate_frame s1).2)) ∧
    ((init_heap allocate_frame map_to s g).1 = Except.ok () →
      (init_heap allocate_frame map_to s g).2.1.map MapCall.page =
        page_range ∧
      (init_heap allocate_frame map_to s g).2.2.2 =
        { g with
            heap_start := HEAP_START
            heap_end := HEAP_START + HEAP_SIZE
            next := HEAP_START }) := by
  have hpr : page_range = List.range' 18325193792 25 := by
    unfold page_range page_containing HEAP_START HEAP_SIZE
    norm_num
  have hsplit : ∀ r : Except MapToError Unit × List MapCall × σ,
      init_heap_go allocate_frame map_to page_range s [] = r →
      init_heap allocate_frame map_to s g =
        (match r.1 with
          | Except.ok _ => Except.ok ()
          | Except.error e => Except.error e,
         r.2.1, r.2.2,
         match r.1 with
          | Except.ok _ => g.init HEAP_START HEAP_SIZE
          | Except.error _ => g) := by
    intro r hr
    unfold init_heap
    rw [hr]
    rcases r with ⟨pres, plog, ps'⟩
    cases pres with
    | ok u => rfl
    | error e => rfl
  obtain ⟨new, hlog, htake, hflags, hok⟩ :=
    init_heap_go_spec allocate_frame map_to page_range s []
  rcases hR : init_heap_go allocate_frame map_to page_range s [] with
    ⟨res, log, s'⟩
  rw [hR] at hlog hok
  simp only [List.nil_append] at hlog
  have hcomp := hsplit (res, log, s') hR
  dsimp only at hcomp
  refine ⟨?_, ?_, ?_, ?_, ?_, ?_⟩
  · intro addr
    constructor
    · rintro ⟨h1, h2⟩
      refine ⟨addr / 4096, ?_, ?_, ?_⟩
      · rw [hpr, List.mem_range'_1]
        unfold HEAP_START at h1
        unfold HEAP_START HEAP_SIZE at h2
        omega
      · exact Nat.div_mul_le_self addr 4096
      · omega
    · rintro ⟨p, hp, hp1, hp2⟩
      rw [hpr, List.mem_range'_1] at hp
      unfold HEAP_START HEAP_SIZE
      omega
  · intro c hc
    apply hflags
    cases res with
    | ok u =>
      rw [hcomp] at hc
      rw [← hlog]
      exact hc
    | error e =>
      rw [hcomp] at hc
      rw [← hlog]
      exact hc
  · cases res with
    | ok u =>
      rw [hcomp]
      show log.map MapCall.page = page_range.take log.length
      rw [hlog]
      exact htake
    | error e =>
      rw [hcomp]
      show log.map MapCall.page = page_range.take log.length
      rw [hlog]
      exact htake
  · intro e he
    cases res with
    | ok u =>
      rw [hcomp] at he
      exact absurd he (by simp)
    | error e' =>
      rw [hcomp]
  · intro p ps s1 log1 hfail
    rcases haf : allocate_frame s1 with ⟨fo, s2⟩
    rw [haf] at hfail
    simp only [] at hfail
    subst hfail
    simp [init_heap_go, haf]
  · intro hsucc
    cases res with
    | error e =>
      rw [hcomp] at hsucc
      exact absurd hsucc (by simp)
    | ok u =>
      rw [hcomp]
      constructor
      · show log.map MapCall.page = page_range
        rw [hlog]
        exact hok rfl
      · show g.init HEAP_START HEAP_SIZE = _
        unfold BumpAllocator.init
        have hmod : (HEAP_START + HEAP_SIZE) % USIZE = HEAP_START + HEAP_SIZE := by
          decide
        rw [hmod]

/-- Witness for C7: a frame allocator handing out fresh frames lets the
whole walk succeed and seeds the allocator with the heap window; an
always-failing frame allocator aborts immediately with the
frame-allocation error. -/
theorem init_heap_correct_witness :
    (init_heap (fun n : Nat => (some (4096 * n), n + 1))
        (fun _ _ => (none : Option MapToError)) 0 BumpAllocator.new).2.2.2 =
      { BumpAllocator.new with
          heap_start := HEAP_START
          heap_end := HEAP_START + HEAP_SIZE
          next := HEAP_START } ∧
    init_heap_go (fun n : Nat => ((none : Option Nat), n))
        (fun _ _ => (none : Option MapToError)) [7, 3] 0 [] =
      (Except.error MapToError.FrameAllocationFailed, [], 0) := by
  constructor
  · exact ((init_heap_correct (fun n : Nat => (some (4096 * n), n + 1))
      (fun _ _ => (none : Option MapToError)) 0
      BumpAllocator.new).2.2.2.2.2 (by rfl)).2
  · exact (init_heap_correct (fun n : Nat => ((none : Option Nat), n))
      (fun _ _ => (none : Option MapToError)) 0
      BumpAllocator.new).2.2.2.2.1 7 [3] 0 [] (by rfl)

/-! ### Descriptor tables and interrupt dispatch
(`src/gdt.rs`, `src/interrupts.rs`) -/

/-- `DOUBLE_FAULT_IST_INDEX` from `src/gdt.rs`. -/
def DOUBLE_FAULT_IST_INDEX : Nat := 0

/-- The reserved fault stack's size: `4096 * 5` bytes. -/
def STACK_SIZE : Nat := 4096 * 5

/-- The double-fault IST slot as an index into the seven-entry IST. -/
def double_fault_ist_slot : Fin 7 := ⟨DOUBLE_FAULT_IST_INDEX, by decide⟩

/-- The x86 task state segment, reduced to its interrupt stack table:
seven stack-pointer slots (`VirtAddr`, zero when unused). -/
structure TaskStateSegment where
  interrupt_stack_table : Fin 7 → Nat

/-- `TaskStateSegment::new`: all IST slots zero. -/
def TaskStateSegment.new : TaskStateSegment :=
  { interrupt_stack_table := fun _ => 0 }

/-- The TSS built in `src/gdt.rs`, parametrized by the link-time
address of the reserved `STACK`: slot `DOUBLE_FAULT_IST_INDEX` is set
to the stack's end address (`stack_start + STACK_SIZE`, since x86
stacks grow downward); no other slot is written. -/
def TSS (stack_start : Nat) : TaskStateSegment :=
  { interrupt_stack_table :=
      Function.update TaskStateSegment.new.interrupt_stack_table
        double_fault_ist_slot (stack_start + STACK_SIZE) }

/-- What a handler does when invoked: report and return normally, or
report and never return (the Rust handler's return type is `!`; it
panics). -/
inductive HandlerResult where
  | returns (output : String)
  | fatal (output : String)
deriving DecidableEq

/-- `breakpoint_handler`: prints the exception banner with the stack
frame and returns normally. -/
def breakpoint_handler (stack_frame : String) : HandlerResult :=
  HandlerResult.returns ("EXCEPTION: BREAKPOINT\n" ++ stack_frame)

/-- `double_fault_handler`: never returns; it reports the stack frame
and panics. -/
def double_fault_handler (stack_frame : String) (error_code : Nat) :
    HandlerResult :=
  HandlerResult.fatal ("EXCEPTION: DOUBLE FAULT\n" ++ stack_frame)

/-- An IDT entry: whether a handler is installed and which IST slot its
gate selects (`none`: stay on the current stack). -/
structure IDTEntry where
  present : Bool
  stack_index : Option Nat
deriving DecidableEq

def PIC_1_OFFSET : Nat := 32

def PIC_2_OFFSET : Nat := PIC_1_OFFSET + 8

/-- The IDT built in `src/interrupts.rs`, reduced to the four gates the
kernel installs: breakpoint, double fault (the only gate selecting an
IST slot), and the two PIC gates (timer, keyboard). -/
structure InterruptDescriptorTable where
  breakpoint : IDTEntry
  double_fault : IDTEntry
  timer : IDTEntry
  keyboard : IDTEntry

/-- The lazily built `IDT` value. -/
def IDT : InterruptDescriptorTable :=
  { breakpoint := { present := true, stack_index := none }
    double_fault :=
      { present := true, stack_index := some DOUBLE_FAULT_IST_INDEX }
    timer := { present := true, stack_index := none }
    keyboard := { present := true, stack_index := none } }

/-- **C8** (confirmed).  The double-fault gate selects IST slot
`DOUBLE_FAULT_IST_INDEX = 0`; the TSS populates only IST slot 0,
pointing it at the end of the statically reserved stack of
`4096 * 5 = 20 KiB`; the double-fault handler never returns; the
breakpoint handler reports the stack frame and returns normally. -/
theorem idt_tss_configuration :
    IDT.double_fault.present = true ∧
    IDT.double_fault.stack_index = some DOUBLE_FAULT_IST_INDEX ∧
    DOUBLE_FAULT_IST_INDEX = 0 ∧
    STACK_SIZE = 4096 * 5 ∧ STACK_SIZE = 20 * 1024 ∧
    (∀ stack_start : Nat,
      (TSS stack_start).interrupt_stack_table =
        fun i : Fin 7 =>
          if i = double_fault_ist_slot then stack_start + STACK_SIZE
          else 0) ∧
    (∀ frame code, double_fault_handler frame code =
      HandlerResult.fatal ("EXCEPTION: DOUBLE FAULT\n" ++ frame)) ∧
    (∀ frame, breakpoint_handler frame =
      HandlerResult.returns ("EXCEPTION: BREAKPOINT\n" ++ frame)) := by
  refine ⟨rfl, rfl, rfl, rfl, rfl, ?_, fun f c => rfl, fun f => rfl⟩
  intro stack_start
  funext i
  show Function.update TaskStateSegment.new.interrupt_stack_table
    double_fault_ist_slot (stack_start + STACK_SIZE) i = _
  rw [Function.update_apply]
  rfl

end CloudOS
